import Mathlib

/-!
Verification of the clcache compiler cache (src/clcache.py) against its
natural-language specification.

The source is a single Python 2 module.  The shallow embedding below models:
  - Python string primitives used by the module (indexing raises IndexError on
    an out-of-range index, modelled with Option; slicing is total),
  - ObjectCache._normalizedCommandLine and the command-line text hashed by
    ObjectCache.computeKey,
  - ObjectCache.clean (eviction) over an abstract list of entries, each
    carrying the object blob's last-access time (os.stat().st_atime) and size
    (st_size); the on-disk walk, sort and rmtree loop become list operations,
  - PersistentJSONDict / Configuration, with the JSON parser abstracted as a
    fallible function argument (json.load either yields a document or raises,
    which the bare except swallows),
  - analyzeCommandLine as a fold over the tokens after the program name,
  - the cache-miss insertion branch of the module main flow, and
  - the module main flow (lines 370-408) as a trace of shared-cache-state
    events, used to examine the locking discipline.
-/

namespace Clcache

/-! ## Python string primitives

Python 2 `str` is modelled through the character list `String.data`.
`s[i]` raises IndexError when out of range (modelled by `Option`);
slices `s[i:]` and `s[i:j]` are total.  -/

/-- `s[i]`: character at index `i`, `none` models the IndexError. -/
def pyAt (s : String) (i : Nat) : Option Char :=
  s.data.get? i

/-- `s[n:]` for `n ≥ 0`. -/
def pyDrop (s : String) (n : Nat) : String :=
  ⟨s.data.drop n⟩

/-- `s[a:b]` for `0 ≤ a ≤ b`. -/
def pySlice (s : String) (a b : Nat) : String :=
  ⟨(s.data.take b).drop a⟩

/-- `s.startswith(p)`. -/
def pyStartsWith (s p : String) : Bool :=
  decide (s.data.take p.data.length = p.data)

/-- Python truthiness of an optional string variable (`None` and `""` are
falsy, every other string truthy). -/
def pyTruthy : Option String → Bool
  | none => false
  | some s => decide (s ≠ "")

/-! ## ObjectCache._normalizedCommandLine (src/clcache.py lines 114-128) -/

/-- The `_argsToStrip` tuple: preprocessor-only switch prefixes plus the
output-file switch prefix `Fo`. -/
def argsToStrip : List String :=
  ["AI", "C", "E", "P", "FI", "u", "X", "FU", "D", "EP", "Fx", "U", "I", "Fo"]

/-- The condition "arg[0] is a slash or a dash, and arg[1:].startswith(the
strip tuple)" under which `_normalizedCommandLine` drops a token.  For the empty token the source
would raise IndexError at `arg[0]`; the model returns `false` there and the
theorems that quantify over command lines assume nonempty tokens. -/
def isStripped (arg : String) : Bool :=
  (match arg.data with
   | [] => false
   | c :: _ => c = '/' || c = '-')
  && argsToStrip.any fun p => pyStartsWith (pyDrop arg 1) p

/-- `ObjectCache._normalizedCommandLine`: keep exactly the tokens that are not
stripped. -/
def normalizedCommandLine (cmdline : List String) : List String :=
  cmdline.filter fun arg => ! isStripped arg

/-- The command-line text fed to the hash in `ObjectCache.computeKey`:
`' '.join(normalizedCmdLine)`. -/
def joinedNormalizedCommandLine (cmdline : List String) : String :=
  String.intercalate " " (normalizedCommandLine cmdline)

/-- Spec-side predicate, following the specification's words: a switch token
(prefixed by `/` or `-`) whose name after the prefix starts with one of the
denylisted preprocessor-only prefixes or with the output-path prefix `Fo`.
Used only to compare against the source-derived `isStripped`. -/
def specStripped (arg : String) : Bool :=
  (pyStartsWith arg "/" || pyStartsWith arg "-")
  && argsToStrip.any fun p => pyStartsWith (pyDrop arg 1) p

/-- Spec-side normalization: delete every `specStripped` token, keep order. -/
def specNormalizedCommandLine (cmdline : List String) : List String :=
  cmdline.filter fun arg => ! specStripped arg

/-! ## ObjectCache.clean (src/clcache.py lines 57-75)

An on-disk cache entry is reduced to the data `clean` consults: the object
blob's last-access time and size from `os.stat`.  The walk over the cache
directory yields a list of entries; `objectInfos.sort(key=..., reverse=True)`
is Python's stable sort by `st_atime` descending, modelled by a stable
insertion sort; the `rmtree` loop becomes `evictLoop`, which returns the
deleted entries, the surviving entries, and the final `currentSize` that
`stats.setCacheSize` records. -/

/-- The data of one cache entry directory that `clean` consults. -/
structure EntryInfo where
  atime : Int
  size : Nat
deriving DecidableEq, Repr

/-- Stable insertion into a list sorted by `atime` descending (a later-walked
entry is placed after earlier-walked entries of equal `atime`, matching
Python's stable sort). -/
def insertByAtimeDesc (e : EntryInfo) : List EntryInfo → List EntryInfo
  | [] => [e]
  | x :: xs =>
    if x.atime ≤ e.atime then e :: x :: xs else x :: insertByAtimeDesc e xs

/-- `objectInfos.sort(key=lambda t: t[0].st_atime, reverse=True)`: stable sort
by last-access time descending (most recently used first). -/
def sortByAtimeDesc : List EntryInfo → List EntryInfo
  | [] => []
  | x :: xs => insertByAtimeDesc x (sortByAtimeDesc xs)

/-- The `for stat, fn in objectInfos:` loop of `clean`: delete entries from
the front of the sorted list, subtracting each deleted entry's size from
`currentSize`, and stop as soon as `currentSize < maximumSize`.
Returns `(deleted, retained, final currentSize)`. -/
def evictLoop (maximumSize : Int) : List EntryInfo → Int →
    List EntryInfo × List EntryInfo × Int
  | [], currentSize => ([], [], currentSize)
  | e :: rest, currentSize =>
    if currentSize - (e.size : Int) < maximumSize then
      ([e], rest, currentSize - (e.size : Int))
    else
      (e :: (evictLoop maximumSize rest (currentSize - (e.size : Int))).1,
       (evictLoop maximumSize rest (currentSize - (e.size : Int))).2.1,
       (evictLoop maximumSize rest (currentSize - (e.size : Int))).2.2)

/-- `ObjectCache.clean(stats, maximumSize)`.  `currentSize` is the value of
`stats.currentCacheSize()`; the result's last component is the cache size the
statistics hold afterwards (unchanged in the early-return branch, else the
value passed to `stats.setCacheSize`). -/
def clean (currentSize maximumSize : Int) (entries : List EntryInfo) :
    List EntryInfo × List EntryInfo × Int :=
  if currentSize < maximumSize then ([], entries, currentSize)
  else evictLoop maximumSize (sortByAtimeDesc entries) currentSize

/-- Total size of a list of entries, as recorded by `os.stat().st_size`. -/
def sizeSum (l : List EntryInfo) : Int :=
  (l.map fun e => (e.size : Int)).sum

/-! ## PersistentJSONDict and Configuration (src/clcache.py lines 130-172)

The document is an association list from string keys to the integer values the
configuration and statistics stores hold.  `json.load` is abstracted as a
function `parse`; it either produces a document or fails (raises), and the
constructor's bare `except: pass` swallows every failure — a missing file
(`open` raises, modelled by `contents = none`) as well as malformed content
(`parse` returns `none`).  The constructor is a total function: no input makes
it fail. -/

/-- Association-list update, as `self._dict[key] = value`. -/
def setKey : List (String × Int) → String → Int → List (String × Int)
  | [], k, v => [(k, v)]
  | kv :: rest, k, v =>
    if kv.1 = k then (k, v) :: rest else kv :: setKey rest k v

/-- Association-list lookup; `none` models the KeyError of `__getitem__`. -/
def lookupKey : List (String × Int) → String → Option Int
  | [], _ => none
  | kv :: rest, k => if kv.1 = k then some kv.2 else lookupKey rest k

/-- `PersistentJSONDict`: the loaded document, the dirty flag, and the file
name it will be saved to. -/
structure PersistentJSONDict where
  dict : List (String × Int)
  dirty : Bool
  fileName : String
deriving DecidableEq, Repr

/-- `PersistentJSONDict.__init__`: dirty starts `False`; the document is the
parsed file contents, or the empty document when the file is missing
(`contents = none`) or malformed (`parse` fails). -/
def PersistentJSONDict.init (parse : String → Option (List (String × Int)))
    (contents : Option String) (fileName : String) : PersistentJSONDict :=
  { dict :=
      match contents with
      | none => []
      | some s =>
        match parse s with
        | none => []
        | some d => d
    dirty := false
    fileName := fileName }

/-- `__setitem__`: store the value and set the dirty flag. -/
def PersistentJSONDict.setItem (d : PersistentJSONDict) (k : String) (v : Int) :
    PersistentJSONDict :=
  { d with dict := setKey d.dict k v, dirty := true }

/-- `__contains__`. -/
def PersistentJSONDict.containsKey (d : PersistentJSONDict) (k : String) : Bool :=
  d.dict.any fun kv => decide (kv.1 = k)

/-- `__getitem__`. -/
def PersistentJSONDict.getItem (d : PersistentJSONDict) (k : String) : Option Int :=
  lookupKey d.dict k

/-- `save()`: writes the whole document to the file iff the dirty flag is
set; the result is the write it performs, if any. -/
def PersistentJSONDict.save (d : PersistentJSONDict) :
    Option (String × List (String × Int)) :=
  if d.dirty then some (d.fileName, d.dict) else none

/-- `Configuration._defaultValues`. -/
def configurationDefaultValues : List (String × Int) :=
  [("MaximumCacheSize", 1024 * 1024 * 1000)]

/-- The `Configuration` store: a `PersistentJSONDict` over `config.txt`. -/
structure Configuration where
  cfg : PersistentJSONDict
deriving DecidableEq, Repr

/-- `Configuration.__init__`: load `config.txt`, then write each default value
whose key is absent. -/
def Configuration.init (parse : String → Option (List (String × Int)))
    (contents : Option String) : Configuration :=
  ⟨configurationDefaultValues.foldl
    (fun c kv => if c.containsKey kv.1 then c else c.setItem kv.1 kv.2)
    (PersistentJSONDict.init parse contents "config.txt")⟩

/-- `Configuration.maximumCacheSize()`. -/
def Configuration.maximumCacheSize (c : Configuration) : Option Int :=
  c.cfg.getItem "MaximumCacheSize"

/-! ## analyzeCommandLine (src/clcache.py lines 270-299)

The loop `for arg in cmdline[1:]` threads the state
(foundCompileOnlySwitch, sourceFile, outputFile) and may return early.
`analyzeArg` is the body for one token: `none` models the IndexError a
too-short token raises (`arg[0]` on an empty token, `arg[1]` on a lone
slash or dash); `Sum.inr` is an early `return`; `Sum.inl` continues with the
updated state.  The default output-file computation
`os.path.join(os.getcwd(), os.path.splitext(os.path.basename(src))[0] + ".obj")`
depends on the ambient working directory and is abstracted as the function
argument `defaultObjectName`. -/

/-- The four values of the `AnalysisResult` class. -/
inductive AnalysisResult where
  | Ok | NoSourceFile | MultipleSourceFiles | CalledForLink
deriving DecidableEq, Repr

/-- One iteration of the scanning loop of `analyzeCommandLine`. -/
def analyzeArg (arg : String) (st : Bool × Option String × Option String) :
    Option ((Bool × Option String × Option String) ⊕ AnalysisResult) :=
  match pyAt arg 0 with
  | none => none
  | some c0 =>
    if c0 = '/' || c0 = '-' then
      if pyDrop arg 1 = "link" then
        some (.inr .CalledForLink)
      else
        match pyAt arg 1 with
        | none => none
        | some c1 =>
          if c1 = 'c' then
            some (.inl (true, st.2.1, st.2.2))
          else if pySlice arg 1 3 = "Fo" then
            some (.inl (st.1, st.2.1, some (pyDrop arg 3)))
          else if pySlice arg 1 3 = "Tp" || pySlice arg 1 3 = "Tc" then
            some (.inl (st.1, some (pyDrop arg 3), st.2.2))
          else
            some (.inl st)
    else if c0 = '@' then
      some (.inr .MultipleSourceFiles)
    else if pyTruthy st.2.1 then
      some (.inr .MultipleSourceFiles)
    else
      some (.inl (st.1, some arg, st.2.2))

/-- The whole scanning loop: fold `analyzeArg` over the tokens, stopping at an
early return or an IndexError. -/
def analyzeLoop : List String → (Bool × Option String × Option String) →
    Option ((Bool × Option String × Option String) ⊕ AnalysisResult)
  | [], st => some (.inl st)
  | arg :: rest, st =>
    match analyzeArg arg st with
    | none => none
    | some (.inl st') => analyzeLoop rest st'
    | some (.inr r) => some (.inr r)

/-- `analyzeCommandLine(cmdline)`: scan the tokens after the program name,
then apply the post-loop defaulting and classification.  The result carries
`(analysis result, sourceFile, outputFile)`; `none` models an IndexError. -/
def analyzeCommandLine (defaultObjectName : String → String)
    (cmdline : List String) :
    Option (AnalysisResult × Option String × Option String) :=
  match analyzeLoop cmdline.tail (false, none, none) with
  | none => none
  | some (.inr r) => some (r, none, none)
  | some (.inl (foundCompileOnlySwitch, sourceFile, outputFile)) =>
    let outputFile :=
      if !pyTruthy outputFile && pyTruthy sourceFile then
        some (defaultObjectName ((sourceFile).getD ""))
      else outputFile
    if !foundCompileOnlySwitch then
      some (.CalledForLink, none, none)
    else if sourceFile = some "" then
      some (.NoSourceFile, none, none)
    else
      some (.Ok, sourceFile, outputFile)

/-! ## The cache-miss insertion branch (src/clcache.py lines 396-408)

After `registerCacheMiss` and the real compile, the branch guards every
cache-state change on `returnCode == 0` alone: `setEntry` copies the object
file into the store and `registerCacheEntry(os.path.getsize(outputFile))`
records its size, with no inspection of that size beforehand. -/

/-- Outcome of the miss branch: whether `setEntry` ran, the size passed to
`registerCacheEntry` (if any), and the process exit code. -/
structure MissResult where
  entryInserted : Bool
  registeredSize : Option Int
  exitCode : Int
deriving DecidableEq, Repr

/-- The `else:` branch of the final `if cache.hasEntry(cachekey):`, given the
real compiler's return code and the produced object file's size. -/
def missBranch (returnCode : Int) (objectFileSize : Int) : MissResult :=
  if returnCode = 0 then
    { entryInserted := true
      registeredSize := some objectFileSize
      exitCode := returnCode }
  else
    { entryInserted := false
      registeredSize := none
      exitCode := returnCode }

/-! ## The post-classification main flow as an event trace
(src/clcache.py lines 370-408)

Each operation on shared on-disk cache state becomes an event; in-memory
statistics mutations and the external compiler invocations are carried along
as non-shared events.  `cacheLock(cache)` at line 372 constructs the
`FileLock` object; the trace records an `acquireLock` or `releaseLock` event
only where the source calls the corresponding lock method. -/

/-- Events of the post-classification flow. -/
inductive CacheEvent where
  | createLockObject
  | acquireLock
  | releaseLock
  | loadStats
  | mutateStats
  | saveStats
  | checkEntry
  | fetchEntry
  | insertEntry
  | loadConfig
  | evictEntries
  | invokeCompiler
deriving DecidableEq, Repr

/-- The events that read or write shared on-disk cache state named by the
locking policy: statistics load/save, cache entry existence check and insert,
eviction, configuration read. -/
def sharedStateEvent : CacheEvent → Bool
  | .loadStats => true
  | .saveStats => true
  | .checkEntry => true
  | .insertEntry => true
  | .loadConfig => true
  | .evictEntries => true
  | _ => false

/-- The trace of the module main flow from line 370 on, for an invocation
classified as `analysisResult`, with `hasEntry` the result of
`cache.hasEntry(cachekey)` and `returnCode` the real compiler's exit code on
the miss path. -/
def mainFlowTrace (analysisResult : AnalysisResult) (hasEntry : Bool)
    (returnCode : Int) : List CacheEvent :=
  [.loadStats, .createLockObject] ++
  (if analysisResult ≠ .Ok then
    [.mutateStats, .saveStats, .invokeCompiler]
  else
    [.checkEntry] ++
    (if hasEntry then
      [.mutateStats, .saveStats, .fetchEntry]
    else
      [.mutateStats, .invokeCompiler] ++
      (if returnCode = 0 then
        [.insertEntry, .mutateStats, .loadConfig, .evictEntries]
      else []) ++
      [.saveStats]))

/-- Checks that every shared-state event of the trace happens while the lock
is held, tracking the nesting depth of acquisitions. -/
def eventsUnderLock : List CacheEvent → Nat → Bool
  | [], _ => true
  | e :: rest, depth =>
    match e with
    | .acquireLock => eventsUnderLock rest (depth + 1)
    | .releaseLock => eventsUnderLock rest (depth - 1)
    | _ => (!sharedStateEvent e || decide (0 < depth)) && eventsUnderLock rest depth

/-! ## Lemmas about the eviction model -/

theorem perm_insertByAtimeDesc (e : EntryInfo) (l : List EntryInfo) :
    List.Perm (insertByAtimeDesc e l) (e :: l) := by
  induction l with
  | nil => simp [insertByAtimeDesc]
  | cons x xs ih =>
    unfold insertByAtimeDesc
    split
    · exact List.Perm.refl _
    · exact List.Perm.trans (List.Perm.cons x ih) (List.Perm.swap e x xs)

theorem perm_sortByAtimeDesc (l : List EntryInfo) :
    List.Perm (sortByAtimeDesc l) l := by
  induction l with
  | nil => simp [sortByAtimeDesc]
  | cons x xs ih =>
    exact List.Perm.trans (perm_insertByAtimeDesc x (sortByAtimeDesc xs))
      (List.Perm.cons x ih)

theorem pairwise_insertByAtimeDesc (e : EntryInfo) (l : List EntryInfo)
    (h : l.Pairwise fun a b => b.atime ≤ a.atime) :
    (insertByAtimeDesc e l).Pairwise fun a b => b.atime ≤ a.atime := by
  induction l with
  | nil => simp [insertByAtimeDesc]
  | cons x xs ih =>
    rcases List.pairwise_cons.mp h with ⟨hx, hxs⟩
    unfold insertByAtimeDesc
    split
    · rename_i hle
      refine List.pairwise_cons.mpr ⟨?_, h⟩
      intro y hy
      rcases List.mem_cons.mp hy with hy | hy
      · exact hy ▸ hle
      · exact le_trans (hx y hy) hle
    · rename_i hgt
      refine List.pairwise_cons.mpr ⟨?_, ih hxs⟩
      intro y hy
      rcases List.mem_cons.mp ((perm_insertByAtimeDesc e xs).mem_iff.mp hy)
        with hy | hy
      · exact hy ▸ le_of_lt (lt_of_not_le hgt)
      · exact hx y hy

theorem pairwise_sortByAtimeDesc (l : List EntryInfo) :
    (sortByAtimeDesc l).Pairwise fun a b => b.atime ≤ a.atime := by
  induction l with
  | nil => simp [sortByAtimeDesc]
  | cons x xs ih => exact pairwise_insertByAtimeDesc x (sortByAtimeDesc xs) ih

theorem sizeSum_append (l₁ l₂ : List EntryInfo) :
    sizeSum (l₁ ++ l₂) = sizeSum l₁ + sizeSum l₂ := by
  simp [sizeSum]

theorem evictLoop_append (m : Int) (l : List EntryInfo) (c : Int) :
    (evictLoop m l c).1 ++ (evictLoop m l c).2.1 = l := by
  induction l generalizing c with
  | nil => simp [evictLoop]
  | cons e rest ih =>
    unfold evictLoop
    split
    · simp
    · simpa using ih (c - (e.size : Int))

theorem evictLoop_final (m : Int) (l : List EntryInfo) (c : Int) :
    (evictLoop m l c).2.2 = c - sizeSum (evictLoop m l c).1 := by
  induction l generalizing c with
  | nil => simp [evictLoop, sizeSum]
  | cons e rest ih =>
    unfold evictLoop
    split
    · simp [sizeSum]
    · have := ih (c - (e.size : Int))
      simp only [sizeSum, List.map_cons, List.sum_cons] at this ⊢
      omega

theorem evictLoop_stop (m : Int) (l : List EntryInfo) (c : Int) :
    (evictLoop m l c).2.1 = [] ∨ (evictLoop m l c).2.2 < m := by
  induction l generalizing c with
  | nil => simp [evictLoop]
  | cons e rest ih =>
    unfold evictLoop
    split
    · rename_i hlt
      exact Or.inr hlt
    · simpa using ih (c - (e.size : Int))

/-- C2: the claim reads "the entries removed are the least-recently-used ones:
every retained entry has a last-access time at least as recent as every
deleted entry".  It is false on the code: with recorded size 10, maximum 10
and two entries of size 5 with last-access times 1 and 2, `clean` deletes the
entry with time 2 and retains the one with time 1, because the sort is
descending and the deletion walk starts at the most recently used entry. -/
theorem clean_lru_counterexample :
    (clean 10 10 [⟨1, 5⟩, ⟨2, 5⟩]).1 = [⟨2, 5⟩]
    ∧ (clean 10 10 [⟨1, 5⟩, ⟨2, 5⟩]).2.1 = [⟨1, 5⟩]
    ∧ ¬ (∀ r ∈ (clean 10 10 [⟨1, 5⟩, ⟨2, 5⟩]).2.1,
          ∀ d ∈ (clean 10 10 [⟨1, 5⟩, ⟨2, 5⟩]).1, d.atime ≤ r.atime) := by
  decide

/-- C2 (amended): an eviction run deletes the most-recently-used entries
first — whenever some entries are deleted and others retained, every deleted
entry has an object-blob last-access time at least as recent as every
retained entry. -/
theorem clean_deletes_most_recent (currentSize maximumSize : Int)
    (entries : List EntryInfo) (d r : EntryInfo)
    (hd : d ∈ (clean currentSize maximumSize entries).1)
    (hr : r ∈ (clean currentSize maximumSize entries).2.1) :
    r.atime ≤ d.atime := by
  by_cases hlt : currentSize < maximumSize
  · simp [clean, hlt] at hd
  · simp only [clean, hlt, if_false] at hd hr
    have hsort := pairwise_sortByAtimeDesc entries
    rw [← evictLoop_append maximumSize (sortByAtimeDesc entries) currentSize]
      at hsort
    exact (List.pairwise_append.mp hsort).2.2 d hd r hr

theorem clean_deletes_most_recent_witness :
    (⟨2, 5⟩ : EntryInfo) ∈ (clean 10 10 [⟨1, 5⟩, ⟨2, 5⟩]).1
    ∧ (⟨1, 5⟩ : EntryInfo) ∈ (clean 10 10 [⟨1, 5⟩, ⟨2, 5⟩]).2.1
    ∧ (EntryInfo.atime ⟨1, 5⟩ : Int) ≤ EntryInfo.atime ⟨2, 5⟩ :=
  ⟨by decide, by decide,
   clean_deletes_most_recent 10 10 [⟨1, 5⟩, ⟨2, 5⟩] ⟨2, 5⟩ ⟨1, 5⟩
     (by decide) (by decide)⟩

/-- C3: the claim reads "after an eviction run triggered with recorded size
at least the maximum (and at least one entry smaller than the maximum), the
remaining on-disk total is at most the maximum and the statistics size field
equals the measured on-disk total".  It is false on the code: with recorded
size 10 (drifted: the true total is 105), maximum 10, entries of sizes 5
(time 2) and 100 (time 1), `clean` deletes only the size-5 entry, records
size 5, and leaves 100 bytes on disk. -/
theorem clean_drift_counterexample :
    (10 : Int) ≤ 10
    ∧ (∃ e ∈ ([⟨2, 5⟩, ⟨1, 100⟩] : List EntryInfo), (e.size : Int) < 10)
    ∧ ¬ (sizeSum (clean 10 10 [⟨2, 5⟩, ⟨1, 100⟩]).2.1 ≤ 10
         ∧ (clean 10 10 [⟨2, 5⟩, ⟨1, 100⟩]).2.2
             = sizeSum (clean 10 10 [⟨2, 5⟩, ⟨1, 100⟩]).2.1) := by
  decide

/-- C3 (amended): after every eviction run triggered with recorded size at
least the maximum — drifted or not — the statistics size field equals the
previous recorded size merely decremented by the deleted entries' sizes;
only when the recorded size was exact (no drift), and at least one entry is
smaller than the maximum, does it also equal the measured total of the
retained entries and stay at most the maximum. -/
theorem clean_decrement_no_drift (currentSize maximumSize : Int)
    (entries : List EntryInfo)
    (htrig : maximumSize ≤ currentSize) :
    (clean currentSize maximumSize entries).2.2
      = currentSize - sizeSum (clean currentSize maximumSize entries).1
    ∧ (currentSize = sizeSum entries →
        (∃ e ∈ entries, (e.size : Int) < maximumSize) →
        (clean currentSize maximumSize entries).2.2
          = sizeSum (clean currentSize maximumSize entries).2.1
        ∧ sizeSum (clean currentSize maximumSize entries).2.1 ≤ maximumSize) := by
  have hlt : ¬ currentSize < maximumSize := not_lt.mpr htrig
  simp only [clean, hlt, if_false]
  have hfinal := evictLoop_final maximumSize (sortByAtimeDesc entries) currentSize
  have happ := evictLoop_append maximumSize (sortByAtimeDesc entries) currentSize
  have hperm : sizeSum (sortByAtimeDesc entries) = sizeSum entries :=
    List.Perm.sum_eq (List.Perm.map _ (perm_sortByAtimeDesc entries))
  refine ⟨hfinal, fun hexact hsmall => ?_⟩
  have hsum : sizeSum (evictLoop maximumSize (sortByAtimeDesc entries) currentSize).1
      + sizeSum (evictLoop maximumSize (sortByAtimeDesc entries) currentSize).2.1
      = currentSize := by
    rw [← sizeSum_append, happ, hperm, ← hexact]
  refine ⟨by omega, ?_⟩
  rcases evictLoop_stop maximumSize (sortByAtimeDesc entries) currentSize with
    hnil | hstop
  · rcases hsmall with ⟨e, _, hesize⟩
    have : (0 : Int) ≤ (e.size : Int) := Int.natCast_nonneg e.size
    rw [hnil]
    simp only [sizeSum, List.map_nil, List.sum_nil]
    omega
  · omega

theorem clean_decrement_no_drift_witness :
    ((10 : Int) ≤ 10
      ∧ (clean 10 10 [⟨2, 5⟩, ⟨1, 100⟩]).2.2
          = 10 - sizeSum (clean 10 10 [⟨2, 5⟩, ⟨1, 100⟩]).1)
    ∧ ((10 : Int) ≤ 12
      ∧ (12 : Int) = sizeSum [⟨1, 5⟩, ⟨2, 7⟩]
      ∧ (∃ e ∈ ([⟨1, 5⟩, ⟨2, 7⟩] : List EntryInfo), (e.size : Int) < 10)
      ∧ ((clean 12 10 [⟨1, 5⟩, ⟨2, 7⟩]).2.2
          = sizeSum (clean 12 10 [⟨1, 5⟩, ⟨2, 7⟩]).2.1
        ∧ sizeSum (clean 12 10 [⟨1, 5⟩, ⟨2, 7⟩]).2.1 ≤ 10)) :=
  ⟨⟨by decide,
    (clean_decrement_no_drift 10 10 [⟨2, 5⟩, ⟨1, 100⟩] (by decide)).1⟩,
   ⟨by decide, by decide, by decide,
    (clean_decrement_no_drift 12 10 [⟨1, 5⟩, ⟨2, 7⟩] (by decide)).2
      (by decide) (by decide)⟩⟩

/-! ## Lemmas about command-line normalization -/

theorem isStripped_eq_specStripped (a : String) :
    isStripped a = specStripped a := by
  have h1 : "/".data = ['/'] := rfl
  have h2 : "-".data = ['-'] := rfl
  unfold isStripped specStripped pyStartsWith
  cases h : a.data with
  | nil => simp [h, h1, h2]
  | cons c cs => simp [h, h1, h2, List.take_succ_cons]

theorem normalizedCommandLine_eq_filter (l : List String) :
    normalizedCommandLine l = specNormalizedCommandLine l := by
  unfold normalizedCommandLine specNormalizedCommandLine
  induction l with
  | nil => rfl
  | cons a as ih => simp [List.filter_cons, isStripped_eq_specStripped, ih]

/-- C5: the command-line contribution to the cache key is exactly the given
command line with the denylisted switch tokens deleted: the normalized line
is a subsequence of the input (order preserved), coincides with the
specification's deletion rule, and two command lines with equal normalized
forms contribute the same joined text to the hash.  Tokens are assumed
nonempty, as the source raises IndexError on an empty token. -/
theorem normalizedCommandLine_matches_spec (l l₁ l₂ : List String)
    (_hl : ∀ a ∈ l, a ≠ "") (_h₁ : ∀ a ∈ l₁, a ≠ "") (_h₂ : ∀ a ∈ l₂, a ≠ "") :
    List.Sublist (normalizedCommandLine l) l
    ∧ normalizedCommandLine l = specNormalizedCommandLine l
    ∧ (specNormalizedCommandLine l₁ = specNormalizedCommandLine l₂ →
        normalizedCommandLine l₁ = normalizedCommandLine l₂
        ∧ joinedNormalizedCommandLine l₁ = joinedNormalizedCommandLine l₂) := by
  refine ⟨List.filter_sublist l, normalizedCommandLine_eq_filter l, fun h => ?_⟩
  have e : normalizedCommandLine l₁ = normalizedCommandLine l₂ := by
    rw [normalizedCommandLine_eq_filter l₁, normalizedCommandLine_eq_filter l₂, h]
  exact ⟨e, by unfold joinedNormalizedCommandLine; rw [e]⟩

theorem normalizedCommandLine_matches_spec_witness :
    (∀ a ∈ ["/c", "/Fox.obj", "a.cpp"], a ≠ "")
    ∧ (List.Sublist (normalizedCommandLine ["/c", "/Fox.obj", "a.cpp"])
        ["/c", "/Fox.obj", "a.cpp"]
      ∧ normalizedCommandLine ["/c", "/Fox.obj", "a.cpp"]
          = specNormalizedCommandLine ["/c", "/Fox.obj", "a.cpp"]
      ∧ (specNormalizedCommandLine ["/c", "/Fox.obj", "a.cpp"]
            = specNormalizedCommandLine ["/c", "/Foy.obj", "a.cpp"] →
          normalizedCommandLine ["/c", "/Fox.obj", "a.cpp"]
            = normalizedCommandLine ["/c", "/Foy.obj", "a.cpp"]
          ∧ joinedNormalizedCommandLine ["/c", "/Fox.obj", "a.cpp"]
            = joinedNormalizedCommandLine ["/c", "/Foy.obj", "a.cpp"])) :=
  ⟨by decide,
   normalizedCommandLine_matches_spec
     ["/c", "/Fox.obj", "a.cpp"] ["/c", "/Fox.obj", "a.cpp"]
     ["/c", "/Foy.obj", "a.cpp"] (by decide) (by decide) (by decide)⟩

/-- C10: normalization strips by prefix, not exact match: inserting a
stripped token anywhere leaves the normalized line unchanged, and any token
beginning with the text slash-E-H (such as the codegen-relevant exception
switch) is always removed because its name starts with the denylisted
prefix E. -/
theorem normalizedCommandLine_strips_prefixes (l₁ l₂ : List String)
    (t : String) (l : List String) (arg : String)
    (ht : isStripped t = true) (hEH : pyStartsWith arg "/EH" = true) :
    normalizedCommandLine (l₁ ++ t :: l₂) = normalizedCommandLine (l₁ ++ l₂)
    ∧ arg ∉ normalizedCommandLine l := by
  constructor
  · simp [normalizedCommandLine, List.filter_append, List.filter_cons, ht]
  · intro hmem
    have hkeep := (List.mem_filter.mp hmem).2
    have htake : arg.data.take 3 = ['/', 'E', 'H'] := of_decide_eq_true hEH
    have hstripped : isStripped arg = true := by
      cases harg : arg.data with
      | nil => rw [harg] at htake; simp at htake
      | cons c cs =>
        rw [harg, List.take_succ_cons] at htake
        have hc : c = '/' := (List.cons.injEq _ _ _ _ ▸ htake).1
        have htake2 : cs.take 2 = ['E', 'H'] :=
          (List.cons.injEq _ _ _ _ ▸ htake).2
        have h1 : cs.take 1 = ['E'] := by
          have hh := List.take_take 1 2 cs
          rw [htake2] at hh
          simpa using hh.symm
        unfold isStripped pyStartsWith pyDrop argsToStrip
        rw [harg]
        simp only [List.drop_succ_cons, List.drop_zero, List.any_cons,
          List.any_nil, Bool.and_eq_true, Bool.or_eq_true, decide_eq_true_eq,
          hc]
        exact ⟨Or.inl trivial, Or.inr (Or.inr (Or.inl h1))⟩
    rw [hstripped] at hkeep
    simp at hkeep

theorem normalizedCommandLine_strips_prefixes_witness :
    isStripped "/EHsc" = true
    ∧ pyStartsWith "/EHsc" "/EH" = true
    ∧ (normalizedCommandLine (["/c"] ++ "/EHsc" :: ["foo.cpp"])
        = normalizedCommandLine (["/c"] ++ ["foo.cpp"])
      ∧ "/EHsc" ∉ normalizedCommandLine ["/c", "/EHsc", "foo.cpp"]) :=
  ⟨by decide, by decide,
   normalizedCommandLine_strips_prefixes ["/c"] ["foo.cpp"] "/EHsc"
     ["/c", "/EHsc", "foo.cpp"] "/EHsc" (by decide) (by decide)⟩

/-! ## Persistent store, configuration default, miss branch -/

/-- C8: constructing a `PersistentJSONDict` never fails (the constructor's
bare except swallows every load error), and on a missing file
(`contents = none`) or malformed content (`parse` fails) it yields the empty
document with the dirty flag unset. -/
theorem persistentJSONDict_load_failure_recovers
    (parse : String → Option (List (String × Int)))
    (contents : Option String) (fileName : String)
    (h : contents = none ∨ ∃ s, contents = some s ∧ parse s = none) :
    (PersistentJSONDict.init parse contents fileName).dict = []
    ∧ (PersistentJSONDict.init parse contents fileName).dirty = false := by
  rcases h with h | ⟨s, hs, hparse⟩
  · subst h; exact ⟨rfl, rfl⟩
  · subst hs
    simp [PersistentJSONDict.init, hparse]

theorem persistentJSONDict_load_failure_recovers_witness :
    ((some "garbage" : Option String) = none
      ∨ ∃ s, (some "garbage" : Option String) = some s
          ∧ (fun _ : String => (none : Option (List (String × Int)))) s = none)
    ∧ (PersistentJSONDict.init (fun _ => none) (some "garbage") "stats.txt").dict = []
    ∧ (PersistentJSONDict.init (fun _ => none) (some "garbage") "stats.txt").dirty
        = false :=
  ⟨Or.inr ⟨"garbage", rfl, rfl⟩,
   persistentJSONDict_load_failure_recovers (fun _ => none) (some "garbage")
     "stats.txt" (Or.inr ⟨"garbage", rfl, rfl⟩)⟩

/-- C6: the claim reads "the default maximum cache size is
1 000 000 × 1024 = 1 024 000 000 bytes".  The code's default is
1024 × 1024 × 1000 = 1 048 576 000 bytes, a different number. -/
theorem configuration_default_counterexample :
    (Configuration.init (fun _ => none) none).maximumCacheSize
      = some 1048576000
    ∧ (1048576000 : Int) ≠ 1000000 * 1024 := by
  exact ⟨rfl, by decide⟩

/-- C6 (amended): when no configuration file exists, `maximumCacheSize()`
returns the default 1024 × 1024 × 1000 = 1 048 576 000 bytes. -/
theorem configuration_default_size
    (parse : String → Option (List (String × Int))) :
    (Configuration.init parse none).maximumCacheSize = some (1024 * 1024 * 1000) :=
  rfl

/-- C4: the claim reads "a cache entry is created if and only if the real
compiler exits zero and the produced object file has non-zero size".  It is
false on the code: with exit code 0 and an object file of size 0 the miss
branch still calls `setEntry` (the size is never consulted before
insertion). -/
theorem missBranch_zero_size_counterexample :
    ¬ ((missBranch 0 0).entryInserted = true ↔ ((0 : Int) = 0 ∧ (0 : Int) ≠ 0)) := by
  decide

/-- C4 (amended): on the cache-miss path a cache entry is created if and only
if the real compiler exits with code zero, regardless of the object file's
size; on a non-zero exit nothing is inserted and no size is registered, and
the exit code is propagated unchanged. -/
theorem missBranch_insert_iff (returnCode objectFileSize : Int) :
    ((missBranch returnCode objectFileSize).entryInserted = true ↔ returnCode = 0)
    ∧ (returnCode ≠ 0 →
        (missBranch returnCode objectFileSize).entryInserted = false
        ∧ (missBranch returnCode objectFileSize).registeredSize = none)
    ∧ (missBranch returnCode objectFileSize).exitCode = returnCode := by
  unfold missBranch
  by_cases h : returnCode = 0 <;> simp [h]

theorem missBranch_insert_iff_witness :
    (((missBranch 5 3).entryInserted = true ↔ (5 : Int) = 0)
    ∧ ((5 : Int) ≠ 0 →
        (missBranch 5 3).entryInserted = false
        ∧ (missBranch 5 3).registeredSize = none)
    ∧ (missBranch 5 3).exitCode = 5) :=
  missBranch_insert_iff 5 3

/-! ## Lemmas about the command-line classifier -/

theorem analyzeLoop_append (xs ys : List String)
    (st : Bool × Option String × Option String) :
    analyzeLoop (xs ++ ys) st =
      match analyzeLoop xs st with
      | none => none
      | some (.inl st') => analyzeLoop ys st'
      | some (.inr r) => some (.inr r) := by
  induction xs generalizing st with
  | nil => simp [analyzeLoop]
  | cons a rest ih =>
    simp only [List.cons_append, analyzeLoop]
    cases analyzeArg a st with
    | none => rfl
    | some s =>
      cases s with
      | inl st' => exact ih st'
      | inr r => rfl

theorem analyzeArg_inr (arg : String)
    (st : Bool × Option String × Option String) (r : AnalysisResult)
    (h : analyzeArg arg st = some (.inr r)) :
    r = .CalledForLink ∨ r = .MultipleSourceFiles := by
  unfold analyzeArg at h
  repeat' split at h
  all_goals simp_all

theorem analyzeLoop_inr (args : List String)
    (st : Bool × Option String × Option String) (r : AnalysisResult)
    (h : analyzeLoop args st = some (.inr r)) :
    r = .CalledForLink ∨ r = .MultipleSourceFiles := by
  induction args generalizing st with
  | nil => simp [analyzeLoop] at h
  | cons a rest ih =>
    unfold analyzeLoop at h
    cases harg : analyzeArg a st with
    | none => rw [harg] at h; simp at h
    | some s =>
      rw [harg] at h
      cases s with
      | inl st' => exact ih st' h
      | inr r' =>
        simp only [Option.some.injEq, Sum.inr.injEq] at h
        exact h ▸ analyzeArg_inr a st r' harg

/-- C7: the claim reads "a link-style switch at any position forces
CalledForLink, regardless of what other tokens (including multiple bare
source-file tokens) appear before or after".  It is false on the code: the
scan returns MultipleSourceFiles at the second bare source token before it
ever reaches the link switch. -/
theorem analyze_link_counterexample :
    "/link" ∈ ["cl", "a.cpp", "b.cpp", "/link"]
    ∧ analyzeCommandLine (fun _ => "") ["cl", "a.cpp", "b.cpp", "/link"]
        = some (.MultipleSourceFiles, none, none) := by
  decide

/-- C7 (amended): a bare "/link" or "-link" token forces CalledForLink
provided the scan of the tokens before it has not already returned early
(an at-token or a second source-file token before the link switch yields
MultipleSourceFiles instead); whatever follows the link switch is never
examined. -/
theorem analyze_link_forces_calledForLink
    (defaultObjectName : String → String) (prog lk : String)
    (pre post : List String)
    (hlk : lk = "/link" ∨ lk = "-link")
    (hpre : ∃ st, analyzeLoop pre (false, none, none) = some (.inl st)) :
    analyzeCommandLine defaultObjectName (prog :: (pre ++ lk :: post))
      = some (.CalledForLink, none, none) := by
  obtain ⟨st, hst⟩ := hpre
  have harg : analyzeArg lk st = some (.inr .CalledForLink) := by
    obtain ⟨fc, src, out⟩ := st
    rcases hlk with h | h <;> subst h <;> rfl
  unfold analyzeCommandLine
  have htail : (prog :: (pre ++ lk :: post)).tail = pre ++ lk :: post := rfl
  rw [htail, analyzeLoop_append, hst]
  simp [analyzeLoop, harg]

theorem analyze_link_forces_calledForLink_witness :
    (("/link" : String) = "/link" ∨ ("/link" : String) = "-link")
    ∧ (∃ st, analyzeLoop ["a.cpp"] (false, none, none) = some (.inl st))
    ∧ analyzeCommandLine (fun _ => "") ("cl" :: (["a.cpp"] ++ "/link" :: []))
        = some (.CalledForLink, none, none) :=
  ⟨Or.inl rfl, ⟨(false, some "a.cpp", none), by decide⟩,
   analyze_link_forces_calledForLink (fun _ => "") "cl" "/link" ["a.cpp"] []
     (Or.inl rfl) ⟨(false, some "a.cpp", none), by decide⟩⟩

theorem analyzeLoop_switches_only (args : List String)
    (hsw : ∀ a ∈ args, (pyAt a 0 = some '/' ∨ pyAt a 0 = some '-')
            ∧ 2 ≤ a.data.length)
    (hnl : ∀ a ∈ args, pyDrop a 1 ≠ "link")
    (hnsrc : ∀ a ∈ args, pySlice a 1 3 ≠ "Tp" ∧ pySlice a 1 3 ≠ "Tc")
    (hnfo : ∀ a ∈ args, pySlice a 1 3 ≠ "Fo") :
    ∀ fc : Bool, analyzeLoop args (fc, none, none)
      = some (.inl
          (fc || args.any (fun a => decide (pyAt a 1 = some 'c')), none, none)) := by
  induction args with
  | nil => intro fc; simp [analyzeLoop]
  | cons a rest ih =>
    intro fc
    obtain ⟨hsw0, hlen⟩ := hsw a (List.mem_cons_self a rest)
    have hc1 : ∃ c1, pyAt a 1 = some c1 := by
      cases hat : pyAt a 1 with
      | none =>
        have := List.get?_eq_none.mp hat
        omega
      | some c1 => exact ⟨c1, rfl⟩
    obtain ⟨c1, hc1⟩ := hc1
    have harg : analyzeArg a (fc, none, none)
        = some (.inl ((if c1 = 'c' then true else fc), none, none)) := by
      unfold analyzeArg
      rcases hsw0 with h0 | h0 <;>
      · rw [h0, hc1]
        simp only [if_neg (hnl a (List.mem_cons_self a rest)),
          if_neg (hnfo a (List.mem_cons_self a rest))]
        have hnsrc' := hnsrc a (List.mem_cons_self a rest)
        by_cases hc : c1 = 'c' <;>
          simp [hc, hnsrc'.1, hnsrc'.2]
    have ihr := ih (fun x hx => hsw x (List.mem_cons_of_mem a hx))
      (fun x hx => hnl x (List.mem_cons_of_mem a hx))
      (fun x hx => hnsrc x (List.mem_cons_of_mem a hx))
      (fun x hx => hnfo x (List.mem_cons_of_mem a hx))
    unfold analyzeLoop
    rw [harg]
    by_cases hc : c1 = 'c'
    · rw [if_pos hc]
      show analyzeLoop rest (true, none, none) = _
      rw [ihr true]
      simp [List.any_cons, hc1, hc]
    · rw [if_neg hc]
      show analyzeLoop rest (fc, none, none) = _
      rw [ihr fc]
      simp [List.any_cons, hc1, hc]

/-- C9: the claim reads "a compile-only switch with no source token yields
Ok with source file and output file both None".  It is false on the code
when an output switch is present: with tokens "/c" and "/Foo.obj" (still no
source token) the classifier returns Ok with output file "o.obj", not
None. -/
theorem analyze_fo_counterexample :
    analyzeCommandLine (fun _ => "") ["cl", "/c", "/Foo.obj"]
      = some (.Ok, none, some "o.obj")
    ∧ (some "o.obj" : Option String) ≠ none := by
  decide

/-- C9 (amended): if every token after the program name is a switch of
length at least two that is not a link switch and carries none of the
prefixes Fo, Tp, Tc, and some switch's second character is c, the classifier
returns Ok with source file and output file both None (with an Fo switch the
output file would be that switch's path instead); and a NoSourceFile outcome
arises only when the scan finished with the source file equal to the empty
string. -/
theorem analyze_no_source_ok :
    (∀ (defaultObjectName : String → String) (prog : String) (args : List String),
      (∀ a ∈ args, (pyAt a 0 = some '/' ∨ pyAt a 0 = some '-')
          ∧ 2 ≤ a.data.length) →
      (∀ a ∈ args, pyDrop a 1 ≠ "link") →
      (∀ a ∈ args, pySlice a 1 3 ≠ "Tp" ∧ pySlice a 1 3 ≠ "Tc") →
      (∀ a ∈ args, pySlice a 1 3 ≠ "Fo") →
      (∃ a ∈ args, pyAt a 1 = some 'c') →
      analyzeCommandLine defaultObjectName (prog :: args)
        = some (.Ok, none, none))
    ∧ (∀ (defaultObjectName : String → String) (cmdline : List String)
          (o₁ o₂ : Option String),
        analyzeCommandLine defaultObjectName cmdline
          = some (.NoSourceFile, o₁, o₂) →
        ∃ fc out, analyzeLoop cmdline.tail (false, none, none)
          = some (.inl (fc, some "", out))) := by
  constructor
  · intro defaultObjectName prog args hsw hnl hnsrc hnfo hc
    have hany : args.any (fun a => decide (pyAt a 1 = some 'c')) = true := by
      rcases hc with ⟨a, ha, hac⟩
      exact List.any_eq_true.mpr ⟨a, ha, by simp [hac]⟩
    have hloop := analyzeLoop_switches_only args hsw hnl hnsrc hnfo false
    rw [Bool.false_or, hany] at hloop
    unfold analyzeCommandLine
    have htail : (prog :: args).tail = args := rfl
    rw [htail, hloop]
    simp [pyTruthy]
  · intro defaultObjectName cmdline o₁ o₂ h
    unfold analyzeCommandLine at h
    cases hloop : analyzeLoop cmdline.tail (false, none, none) with
    | none => rw [hloop] at h; simp at h
    | some s =>
      rw [hloop] at h
      cases s with
      | inr r =>
        simp only [Option.some.injEq, Prod.mk.injEq] at h
        rcases analyzeLoop_inr _ _ _ hloop with hr | hr <;>
          simp [hr] at h
      | inl st =>
        obtain ⟨fc, src, out⟩ := st
        simp only at h
        split at h
        · simp at h
        · split at h
          · rename_i hsrc
            exact ⟨fc, out, by rw [hsrc]⟩
          · simp at h

theorem analyze_no_source_ok_witness :
    analyzeCommandLine (fun _ => "") ["cl", "/c"] = some (.Ok, none, none)
    ∧ ∃ fc out, analyzeLoop (["cl", "/c", "/Tp"] : List String).tail
        (false, none, none) = some (.inl (fc, some "", out)) :=
  ⟨analyze_no_source_ok.1 (fun _ => "") "cl" ["/c"] (by decide) (by decide)
     (by decide) (by decide) ⟨"/c", by decide, by decide⟩,
   analyze_no_source_ok.2 (fun _ => "") ["cl", "/c", "/Tp"] none none
     (by decide)⟩

/-! ## The locking discipline of the main flow -/

/-- C1: the claim reads "every read-then-write of shared on-disk cache state
is performed while the named cross-process cache lock is held".  The code
constructs the lock object (cacheLock, line 372) but never acquires it: for
every classification outcome, entry-present flag and compiler exit code, the
trace of the post-classification flow contains shared-state events at lock
depth zero, contains the lock construction, and contains no acquisition at
all. -/
theorem mainFlow_sharedState_never_locked (analysisResult : AnalysisResult)
    (hasEntry : Bool) (returnCode : Int) :
    eventsUnderLock (mainFlowTrace analysisResult hasEntry returnCode) 0 = false
    ∧ CacheEvent.createLockObject
        ∈ mainFlowTrace analysisResult hasEntry returnCode
    ∧ CacheEvent.acquireLock ∉ mainFlowTrace analysisResult hasEntry returnCode := by
  refine ⟨?_, ?_, ?_⟩
  · simp [mainFlowTrace, eventsUnderLock, sharedStateEvent]
  · simp [mainFlowTrace]
  · cases analysisResult <;> cases hasEntry <;>
      by_cases h : returnCode = 0 <;> simp [mainFlowTrace, h]

theorem mainFlow_sharedState_never_locked_witness :
    eventsUnderLock (mainFlowTrace .Ok false 0) 0 = false
    ∧ CacheEvent.createLockObject ∈ mainFlowTrace .Ok false 0
    ∧ CacheEvent.acquireLock ∉ mainFlowTrace .Ok false 0 :=
  mainFlow_sharedState_never_locked .Ok false 0

end Clcache
